import Mathlib

/-!
Verification of the memory-introspection core of the JOS kernel monitor
(kern/monitor.c): the stack backtrace walker, the show-mapping / set-permission
page-table operations, and the physical/virtual range dumpers.

Machine integers are modelled as `Nat` with explicit `% 2 ^ 32` where the
C code's `uint32_t` arithmetic can overflow.  The live page table, live
memory, and the external symbol resolver are modelled as explicit parameters
(a structure of functions), mirroring the source's use of `kern_pgdir`,
raw loads, and `debuginfo_eip`.

The repository's headers (inc/mmu.h, inc/memlayout.h) and the page-table
walker (kern/pmap.c) are not part of the given sources; the address-layout
helpers and the walk are therefore modelled from the specification: a
two-level translation structure over 32-bit addresses with 4096-byte pages
(the spec's scenario pins the page size) and 4MB directory spans, and a
walk that returns a raw entry or null.  Pointer values are 32 bits wide:
monitor.c itself casts the constructed boundary pointers to `uint32_t` and
notes "Since it is a 32-bit OS".
-/

namespace Monitor

/-- Modelled from the spec: `PDX(la)` (inc/mmu.h, not under src/) — the
directory index of a linear address, the top ten bits of the 10/10/12
split of the two-level structure. -/
def PDX (va : Nat) : Nat := va / 2 ^ 22 % 2 ^ 10

/-- Modelled from the spec: `PTX(la)` (inc/mmu.h, not under src/) — the
table index of a linear address, bits 12..21. -/
def PTX (va : Nat) : Nat := va / 2 ^ 12 % 2 ^ 10

/-- Modelled from the spec: `PGOFF(la)` (inc/mmu.h, not under src/) — the
offset within the 4096-byte page. -/
def PGOFF (va : Nat) : Nat := va % 2 ^ 12

/-- Modelled from the spec: `PGADDR(d, t, o)` (inc/mmu.h, not under src/)
— the linear address with directory index `d`, table index `t` and offset
`o` (a directory entry governs a 4MB span, a table entry a 4KB page); the
constructed pointer value is 32 bits wide, so it is truncated modulo
`2 ^ 32` (monitor.c casts the result to `uint32_t`). -/
def PGADDR (d t o : Nat) : Nat := (d * 2 ^ 22 + t * 2 ^ 12 + o) % 2 ^ 32

/-- Modelled from the spec: `PTE_ADDR(pte)` (inc/mmu.h, not under src/) —
the physical-base field of a translation entry, the entry with its low
12 permission bits cleared (`pte & ~0xFFF`, the same masking monitor.c
itself performs with `~0xfff` in `mon_setperm`). -/
def PTE_ADDR (pte : Nat) : Nat := pte &&& 0xfffff000

/-- `MIN_ADDR(x, y) = (x <= y ? x : y)` from kern/monitor.c. -/
def MIN_ADDR (x y : Nat) : Nat := if x ≤ y then x else y

/-- Modelled from the spec: `ROUNDDOWN(a, n)` (inc/types.h, not under
src/) — align `a` down to a multiple of `n`. -/
def ROUNDDOWN (a n : Nat) : Nat := a - a % n

/-- A 32-bit word load: the address is a `uint32_t` pointer value
(truncated modulo `2 ^ 32`) and the loaded word is a `uint32_t`. -/
def read (m : Nat → Nat) (a : Nat) : Nat := m (a % 2 ^ 32) % 2 ^ 32

/-- The live two-level page-table structure reachable from `kern_pgdir`,
as observed through `pgdir_walk(kern_pgdir, va, 0)`:
`pdePresent d` says whether directory entry `d` is present (whether the
walk returns a non-null slot pointer), `pteVal d t` is the 32-bit page-table
entry stored in slot `(d, t)`, `pteSlotAddr d t` is the kernel virtual
address of that slot (the pointer `pgdir_walk` returns), and `pgdirAddr`
is the pointer value of `kern_pgdir` itself. -/
structure PageTable where
  pdePresent : Nat → Bool
  pteVal : Nat → Nat → Nat
  pteSlotAddr : Nat → Nat → Nat
  pgdirAddr : Nat

/-- Modelled from the spec: `pgdir_walk(kern_pgdir, va, 0)` (kern/pmap.c,
not under src/) — the external two-level walk, `raw translation entry or
null`: `none` models the null return when the directory entry covering
`va` is absent; otherwise the returned pointer is the slot address together
with the 32-bit entry it holds.  A read-only walk (`create = 0`) allocates
nothing and depends only on the indices of `va`. -/
def pgdir_walk (pt : PageTable) (va : Nat) : Option (Nat × Nat) :=
  if pt.pdePresent (PDX va) then
    some (pt.pteSlotAddr (PDX va) (PTX va), pt.pteVal (PDX va) (PTX va) % 2 ^ 32)
  else
    none

/-- One line of `dumpmem` output: the queried address, the physical address
if any (`PA: No mapping` is `none`), and the loaded content if any. -/
structure DumpRecord where
  va : Nat
  pa : Option Nat
  content : Option Nat
deriving DecidableEq

/-- Addresses visited by `for (; a < b; a += 4)`: `a, a+4, ...` while `< b`. -/
def unitSeq (a b : Nat) : List Nat :=
  (List.range ((b - a + 3) / 4)).map (fun k => a + 4 * k)

/-- Value of the loop counter after `for (; s < nx; s += 4)` finishes. -/
def stepAdvance (s nx : Nat) : Nat :=
  if s < nx then s + 4 * ((nx - s + 3) / 4) else s

/-- One iteration of the `while (start_va < end_va)` loop body of
`dump_virtmem`: classify the run at `s`, pick `next_addr`, emit one record
per 4-byte unit of `[s, next_addr)`, and return the advanced loop counter. -/
def dumpVirtStep (pt : PageTable) (m : Nat → Nat) (s e : Nat) :
    List DumpRecord × Nat :=
  match pgdir_walk pt s with
  | none =>
    let nx := MIN_ADDR e (PGADDR (PDX s + 1) 0 0)
    ((unitSeq s nx).map (fun a => ⟨a, none, none⟩), stepAdvance s nx)
  | some pr =>
    if pr.2 &&& 1 = 0 then
      let nx := MIN_ADDR e (PGADDR (PDX s) (PTX s + 1) 0)
      ((unitSeq s nx).map (fun a => ⟨a, none, none⟩), stepAdvance s nx)
    else
      let nx := MIN_ADDR e (PGADDR (PDX s) (PTX s + 1) 0)
      ((unitSeq s nx).map
        (fun a => ⟨a, some (PTE_ADDR pr.2 ||| PGOFF a), some (read m a)⟩),
       stepAdvance s nx)

/-- The `while (start_va < end_va)` loop of `dump_virtmem`, with explicit
fuel bounding the number of outer iterations (the C loop can fail to make
progress, in which case it runs forever and emits nothing further; the
fuelled function then returns the records emitted so far). -/
def dumpVirtLoop (pt : PageTable) (m : Nat → Nat) :
    Nat → Nat → Nat → List DumpRecord
  | 0, _, _ => []
  | fuel + 1, s, e =>
    if s < e then
      let st := dumpVirtStep pt m s e
      st.1 ++ dumpVirtLoop pt m fuel st.2 e
    else []

/-- `dump_virtmem(start_va, n)`: `end_va = start_va + n` in `uint32_t`. -/
def dump_virtmem (pt : PageTable) (m : Nat → Nat) (fuel start n : Nat) :
    List DumpRecord :=
  dumpVirtLoop pt m fuel start ((start + n) % 2 ^ 32)

/-- A page table with no directory entry present at all. -/
def ptAllAbsent : PageTable :=
  PageTable.mk (fun _ => false) (fun _ _ => 0) (fun _ _ => 0xf0400000) 0xf0119000

/-- A page table with only directory entry 1 present and every page-table
entry in it zero (non-present). -/
def ptDir1Unmapped : PageTable :=
  PageTable.mk (fun d => d == 1) (fun _ _ => 0) (fun _ _ => 0xf0400000) 0xf0119000

/-- A page table in which every lookup finds a present, writable,
user-accessible mapping of physical page `0x5000` (like the running
kernel's own address space, whose top page is mapped). -/
def ptAllMapped : PageTable :=
  PageTable.mk (fun _ => true) (fun _ _ => 0x5007) (fun _ _ => 0xf0400000) 0xf0119000

/-- One line of physical-mode `dumpmem` output: physical address and the
word read through the kernel view `KADDR(pa)`. -/
structure PhysRecord where
  pa : Nat
  content : Nat
deriving DecidableEq

/-- `dump_physmem(start_pa, n)`: reject (with a message) if
`start_pa + n > npages * PGSIZE` in `uint32_t` arithmetic, otherwise loop in
4-byte units up to `MIN_ADDR(end_pa, MAX_MEM - KERNBASE + 1)`, reading each
word through `KADDR(start_pa) = start_pa + KERNBASE`. -/
def dump_physmem (npages : Nat) (m : Nat → Nat) (start n : Nat) :
    List PhysRecord :=
  if (start + n) % 2 ^ 32 > npages * 4096 % 2 ^ 32 then []
  else
    let end_pa := (start + n) % 2 ^ 32
    let next := MIN_ADDR end_pa ((0xffffffff - 0xf0000000) + 1)
    (unitSeq start next).map (fun a => ⟨a, read m (a + 0xf0000000)⟩)

/-- Result of the `setperm` command. -/
inductive SetpermResult where
  | ok
  | notMapped
deriving DecidableEq

/-- Store value `v` into page-table slot `(d, t)` (the write `*pte = ...`). -/
def setPte (pt : PageTable) (d t v : Nat) : PageTable :=
  PageTable.mk pt.pdePresent
    (fun d2 t2 => if d2 = d ∧ t2 = t then v else pt.pteVal d2 t2)
    pt.pteSlotAddr pt.pgdirAddr

/-- `mon_setperm`: mask the permission argument to `0xfff`, walk to the
entry, and if it is present rewrite it as `(*pte & ~0xfff) | perm | PTE_P`;
otherwise report that there is no mapping and leave the table untouched. -/
def mon_setperm (pt : PageTable) (va permArg : Nat) :
    SetpermResult × PageTable :=
  let perm := permArg &&& 0xfff
  match pgdir_walk pt va with
  | some q =>
    if q.2 &&& 1 ≠ 0 then
      (.ok, setPte pt (PDX va) (PTX va) ((q.2 &&& 0xfffff000) ||| perm ||| 1))
    else (.notMapped, pt)
  | none => (.notMapped, pt)

/-- The tuple the external resolver `debuginfo_eip` fills in (strings are
abstracted to numeric identifiers; only `eip_fn_addr` enters arithmetic). -/
structure Eipdebuginfo where
  eip_file : Nat
  eip_line : Nat
  eip_fn_name : Nat
  eip_fn_namelen : Nat
  eip_fn_addr : Nat
deriving DecidableEq

/-- One line of backtrace output: saved frame pointer, return address, the
five argument words, the resolver tuple, and the printed symbol offset
`eip - info.eip_fn_addr` (in `uint32_t` arithmetic). -/
structure Frame where
  ebp : Nat
  eip : Nat
  args : List Nat
  info : Eipdebuginfo
  offset : Nat
deriving DecidableEq

/-- Build the record printed for the frame based at `b`:
`eip = *(ebp+1)`, `args = *(ebp+2) .. *(ebp+6)` (pointer arithmetic on a
`uint32_t*`, so 4-byte steps), and `offset = eip - info.eip_fn_addr`. -/
def mkFrame (m : Nat → Nat) (resolve : Nat → Eipdebuginfo) (b : Nat) :
    Frame :=
  let eip := read m (b + 4)
  let info := resolve eip
  Frame.mk b eip
    [read m (b + 8), read m (b + 12), read m (b + 16), read m (b + 20),
     read m (b + 24)]
    info ((eip + 2 ^ 32 - info.eip_fn_addr % 2 ^ 32) % 2 ^ 32)

/-- The `while (ebp)` loop of `mon_backtrace`: emit a frame, then chase
`ebp = (uint32_t *)(*ebp)`.  Fuel bounds the number of iterations (the C
loop runs until a zero link and may never stop on a cyclic chain). -/
def backtraceLoop (m : Nat → Nat) (resolve : Nat → Eipdebuginfo) :
    Nat → Nat → List Frame
  | 0, _ => []
  | fuel + 1, b =>
    if b = 0 then [] else mkFrame m resolve b :: backtraceLoop m resolve fuel (read m b)

/-- A concrete two-frame stack: the word at 8 is 16, all others are 0, so
the chain is `8 → 16 → 0`. -/
def memTwoFrames : Nat → Nat := fun a => if a = 8 then 16 else 0

/-- A resolver stub returning a fixed tuple. -/
def resolveStub : Nat → Eipdebuginfo := fun _ => Eipdebuginfo.mk 0 0 0 0 0

/-- What one `showmapping` line reports for an entry. -/
inductive PteReport where
  | mapped (pa w u : Nat)
  | pgdirCorner (pa : Nat)
  | noMapping
deriving DecidableEq

/-- C double negation `!!x`. -/
def bangbang (x : Nat) : Nat := if x = 0 then 0 else 1

/-- `print_pte(pte)`: a present entry prints its physical base and W/U bits;
otherwise, if the entry pointer (numerically, with a null pointer being 0)
equals `kern_pgdir` the code prints the page directory's own physical
address (`PADDR(kern_pgdir)`, the commented "corner case"); otherwise it
prints `PA: No Mapping`. -/
def print_pte (pgdirAddr : Nat) (r : Option (Nat × Nat)) : PteReport :=
  match r with
  | some pr =>
    if pr.2 &&& 1 ≠ 0 then
      .mapped (PTE_ADDR pr.2) (bangbang (pr.2 &&& 2)) (bangbang (pr.2 &&& 4))
    else if pr.1 % 2 ^ 32 = pgdirAddr % 2 ^ 32 then
      .pgdirCorner (pgdirAddr % 2 ^ 32 - 0xf0000000)
    else .noMapping
  | none =>
    if 0 = pgdirAddr % 2 ^ 32 then .pgdirCorner (pgdirAddr % 2 ^ 32 - 0xf0000000)
    else .noMapping

/-- The `for (; start_addr <= end_addr; start_addr += PGSIZE)` loop of
`mon_showmapping`, with fuel bounding the iteration count: the counter is a
`uint32_t`, so the increment wraps modulo `2 ^ 32`. -/
def showLoop (pt : PageTable) : Nat → Nat → Nat → List (Nat × PteReport)
  | 0, _, _ => []
  | f + 1, s, e =>
    if s ≤ e then
      (s, print_pte pt.pgdirAddr (pgdir_walk pt s)) ::
        showLoop pt f ((s + 4096) % 2 ^ 32) e
    else []

/-- `mon_showmapping(start, end)`: round both arguments down to page
boundaries and walk the loop; the fuel `(e - s)/PGSIZE + 2` covers every
terminating run and exposes at least one wrapped iteration otherwise. -/
def mon_showmapping (pt : PageTable) (saddr eaddr : Nat) :
    List (Nat × PteReport) :=
  let s := ROUNDDOWN (saddr % 2 ^ 32) 4096
  let e := ROUNDDOWN (eaddr % 2 ^ 32) 4096
  showLoop pt ((e - s) / 4096 + 2) s e

/-- The closed-both-ends page sequence from `a` through `b`. -/
def pageSeq (a b : Nat) : List Nat :=
  if a ≤ b then (List.range ((b - a) / 4096 + 1)).map (fun k => a + 4096 * k)
  else []

/-- An address at which the `dump_virtmem` boundary computation is sound:
it is not governed by a missing directory entry in the last directory, and
not in the very last page of the address space with a directory entry
present (the two corners where the constructed 32-bit boundary pointer
overflows to 0). -/
def goodVa (pt : PageTable) (a : Nat) : Prop :=
  (pgdir_walk pt a = none → PDX a < 1023) ∧
  (∀ q, pgdir_walk pt a = some q → ¬(PTX a = 1023 ∧ PDX a = 1023))

/-- For a 32-bit address, the masked directory index is just the quotient. -/
theorem PDX_eq {s : Nat} (hs : s < 2 ^ 32) : PDX s = s / 2 ^ 22 := by
  rw [PDX]
  exact Nat.mod_eq_of_lt (Nat.div_lt_of_lt_mul (by norm_num at hs ⊢; omega))

/-- The table index, written out. -/
theorem PTX_eq (s : Nat) : PTX s = s / 2 ^ 12 % 2 ^ 10 := rfl

/-- The page offset, written out. -/
theorem PGOFF_eq (s : Nat) : PGOFF s = s % 2 ^ 12 := rfl

/-- `MIN_ADDR` is `min`. -/
theorem MIN_ADDR_eq (x y : Nat) : MIN_ADDR x y = min x y := by
  rw [MIN_ADDR, Nat.min_def]

/-- The `next_addr` the code computes for a missing directory entry is the
next directory boundary, provided the address is not in the last directory
(there `PGADDR(1024, 0, 0)` is `2 ^ 32`, which the 32-bit pointer
truncates to 0). -/
theorem nextAddr_dir {s : Nat} (hs : s < 2 ^ 32) (hd : PDX s < 1023) :
    PGADDR (PDX s + 1) 0 0 = (s / 2 ^ 22 + 1) * 2 ^ 22 := by
  rw [PGADDR, PDX_eq hs]
  rw [PDX_eq hs] at hd
  omega

/-- The `next_addr` the code computes for a present directory entry is the
next page boundary, provided the address is not in the very last page of
the address space (there the constructed boundary is `2 ^ 32`, which the
32-bit pointer truncates to 0). -/
theorem nextAddr_pte {s : Nat} (hs : s < 2 ^ 32)
    (hc : ¬(PTX s = 1023 ∧ PDX s = 1023)) :
    PGADDR (PDX s) (PTX s + 1) 0 = (s / 2 ^ 12 + 1) * 2 ^ 12 := by
  rw [PGADDR, PDX_eq hs, PTX_eq]
  rw [PDX_eq hs, PTX_eq] at hc
  have hsplit : s / 2 ^ 12 = 2 ^ 10 * (s / 2 ^ 22) + s / 2 ^ 12 % 2 ^ 10 := by
    conv_lhs => rw [← Nat.div_add_mod (s / 2 ^ 12) (2 ^ 10)]
    rw [Nat.div_div_eq_div_mul]
    norm_num
  have hdle : s / 2 ^ 22 ≤ 1023 := by omega
  omega

/-- Claim C1: dumping `[0xfffff000, 0xfffff004)` — the top page of the
address space, and its mapping is present — emits no record at all, for
every amount of fuel: the code computes
`next_addr = (uint32_t) PGADDR(1023, 1024, 0)`, whose constructed pointer
value `2 ^ 32` truncates to 0 on the 32-bit platform; that lies below
`start_va`, so the inner loop body never runs and `start_va` never
advances — the C loop spins forever instead of covering the requested
range as the claim requires. -/
theorem claim_C1_code_divergence :
    ∀ fuel, dump_virtmem ptAllMapped (fun _ => 0) fuel 0xfffff000 4 = [] := by
  intro fuel
  induction fuel with
  | zero => rfl
  | succ fuel ih =>
    have hstep :
        dumpVirtStep ptAllMapped (fun _ => 0) 0xfffff000 0xfffff004 =
          ([], 0xfffff000) := by decide
    simp only [dump_virtmem, dumpVirtLoop] at ih ⊢
    norm_num [hstep]
    exact ih

/-- Claim C2 (amended): in a virtual-mode dump, a missing directory entry
makes the code emit unmapped records in 4-byte steps up to
`min(end, next directory boundary)` and a present directory entry with a
non-present page entry makes it emit unmapped records up to
`min(end, next page boundary)` — provided the current address is not in the
last (1023rd) directory in the first case, and not in the very last page of
the address space in the second case; at those addresses the constructed
32-bit boundary pointer overflows to 0 and the emitted span is empty
instead. -/
theorem claim_C2_amended (pt : PageTable) (m : Nat → Nat) (s e : Nat)
    (hs : s < 2 ^ 32) :
    (pgdir_walk pt s = none → PDX s < 1023 →
      dumpVirtStep pt m s e =
        ((unitSeq s (min e ((s / 2 ^ 22 + 1) * 2 ^ 22))).map
          (fun a => ⟨a, none, none⟩),
         stepAdvance s (min e ((s / 2 ^ 22 + 1) * 2 ^ 22)))) ∧
    (∀ q, pgdir_walk pt s = some q → q.2 &&& 1 = 0 →
      ¬(PTX s = 1023 ∧ PDX s = 1023) →
      dumpVirtStep pt m s e =
        ((unitSeq s (min e ((s / 2 ^ 12 + 1) * 2 ^ 12))).map
          (fun a => ⟨a, none, none⟩),
         stepAdvance s (min e ((s / 2 ^ 12 + 1) * 2 ^ 12)))) := by
  constructor
  · intro hw hd
    simp only [dumpVirtStep, hw, MIN_ADDR_eq, nextAddr_dir hs hd]
  · intro q hw h0 hc
    simp only [dumpVirtStep, hw, h0, if_pos, MIN_ADDR_eq, nextAddr_pte hs hc]

/-- Claim C2 is false as stated: with no directory entry present, dumping
`[0xffc00000, 0xffc00008)` (the last directory) emits no record, not the
two unmapped records up to `min(end, next directory boundary)` the claim
requires — `PGADDR(1024, 0, 0)` wraps to 0. -/
theorem claim_C2_counterexample :
    ¬((dumpVirtStep ptAllAbsent (fun _ => 0) 0xffc00000 0xffc00008).1 =
      (unitSeq 0xffc00000 (min 0xffc00008 ((0xffc00000 / 2 ^ 22 + 1) * 2 ^ 22))).map
        (fun a => ⟨a, none, none⟩)) := by decide

/-- Witness for the amended claim C2 at a concrete input: directory entry 1
present, page entry non-present, two units starting at `0x500000`. -/
theorem claim_C2_witness :
    (dumpVirtStep ptDir1Unmapped (fun _ => 0) 0x500000 0x500008).1 =
      [⟨0x500000, none, none⟩, ⟨0x500004, none, none⟩] := by
  have h := (claim_C2_amended ptDir1Unmapped (fun _ => 0) 0x500000 0x500008
      (by norm_num)).2 (0xf0400000, 0) (by decide) (by decide) (by decide)
  rw [congrArg Prod.fst h]
  decide

/-- Claim C7 (amended): in a virtual-mode dump, a present mapping makes the
code emit, for every 4-byte unit up to `min(end, next page boundary)`, a
record whose physical address is `PTE_ADDR(entry) | (va mod 4096)` and whose
content is the live word read at that virtual address — provided the current
address is not in the very last page of the address space (there the
constructed 32-bit boundary pointer overflows to 0 and the emitted span is
empty instead). -/
theorem claim_C7_amended (pt : PageTable) (m : Nat → Nat) (s e : Nat)
    (q : Nat × Nat) (hs : s < 2 ^ 32) (hw : pgdir_walk pt s = some q)
    (hp : ¬(q.2 &&& 1 = 0)) (hc : ¬(PTX s = 1023 ∧ PDX s = 1023)) :
    dumpVirtStep pt m s e =
      ((unitSeq s (min e ((s / 2 ^ 12 + 1) * 2 ^ 12))).map
        (fun a => ⟨a, some ((q.2 &&& 0xfffff000) ||| (a % 2 ^ 12)),
                   some (read m a)⟩),
       stepAdvance s (min e ((s / 2 ^ 12 + 1) * 2 ^ 12))) := by
  simp only [dumpVirtStep, hw, if_neg hp, MIN_ADDR_eq, nextAddr_pte hs hc,
    PTE_ADDR, PGOFF_eq]

/-- Claim C7 is false as stated: with a present mapping at `0xfffff000`
(the top page of the address space), dumping `[0xfffff000, 0xfffff008)`
emits no record, not the two mapped records up to
`min(end, next page boundary)` the claim requires — the constructed
boundary `PGADDR(1023, 1024, 0) = 2 ^ 32` truncates to 0. -/
theorem claim_C7_counterexample :
    ¬((dumpVirtStep ptAllMapped (fun _ => 0) 0xfffff000 0xfffff008).1 =
      (unitSeq 0xfffff000
          (min 0xfffff008 ((0xfffff000 / 2 ^ 12 + 1) * 2 ^ 12))).map
        (fun a => ⟨a, some ((0x5007 &&& 0xfffff000) ||| (a % 2 ^ 12)),
                   some 0⟩)) := by decide

/-- Witness for the amended claim C7 at a concrete input: a present mapping
of physical page `0x5000`, three units requested starting at `0x1ff8`, run
cut at the page boundary `0x2000`. -/
theorem claim_C7_witness :
    (dumpVirtStep ptAllMapped (fun _ => 0) 0x1ff8 0x2004).1 =
      [⟨0x1ff8, some 0x5ff8, some 0⟩, ⟨0x1ffc, some 0x5ffc, some 0⟩] := by
  have h := claim_C7_amended ptAllMapped (fun _ => 0) 0x1ff8 0x2004
      (0xf0400000, 0x5007) (by norm_num) (by decide) (by decide) (by decide)
  rw [congrArg Prod.fst h]
  decide

/-- An empty unit run when the bound is not above the start. -/
theorem unitSeq_nil {a b : Nat} (h : b ≤ a) : unitSeq a b = [] := by
  have : (b - a + 3) / 4 = 0 := by omega
  rw [unitSeq, this]
  rfl

/-- Every address in a unit run is below the bound. -/
theorem mem_unitSeq_lt {x a b : Nat} (h : x ∈ unitSeq a b) : x < b := by
  rw [unitSeq, List.mem_map] at h
  obtain ⟨k, hk, rfl⟩ := h
  rw [List.mem_range] at hk
  omega

/-- Claim C3 (amended): a physical-mode dump whose requested end exceeds
installed memory is rejected outright — the whole range is dropped (an
error message is printed), not just the excess; within installed memory the
iteration is additionally clamped to the 256MB kernel-view ceiling
`MAX_MEM - KERNBASE + 1 = 0x10000000`; a start beyond installed memory
always yields zero records; and the condition is never propagated as a
failure (the command still returns normally). -/
theorem claim_C3_amended (npages : Nat) (m : Nat → Nat) (start n : Nat) :
    ((start + n) % 2 ^ 32 > npages * 4096 % 2 ^ 32 →
      dump_physmem npages m start n = []) ∧
    ((start + n) % 2 ^ 32 ≤ npages * 4096 % 2 ^ 32 →
      (dump_physmem npages m start n).map PhysRecord.pa =
        unitSeq start (min ((start + n) % 2 ^ 32) 0x10000000) ∧
      ∀ r ∈ dump_physmem npages m start n,
        r.pa < npages * 4096 % 2 ^ 32 ∧ r.pa < 0x10000000) ∧
    (npages * 4096 % 2 ^ 32 < start → dump_physmem npages m start n = []) := by
  have hceil : ((0xffffffff : Nat) - 0xf0000000) + 1 = 0x10000000 := by norm_num
  refine ⟨fun h => ?_, fun h => ⟨?_, ?_⟩, fun h => ?_⟩
  · rw [dump_physmem, if_pos h]
  · rw [dump_physmem, if_neg (by omega)]
    simp only [List.map_map, MIN_ADDR_eq, hceil]
    have hid : (PhysRecord.pa ∘ fun a =>
        (⟨a, read m (a + 0xf0000000)⟩ : PhysRecord)) = id := by
      funext a
      rfl
    rw [hid, List.map_id]
  · intro r hr
    rw [dump_physmem, if_neg (by omega)] at hr
    simp only [List.mem_map, MIN_ADDR_eq, hceil] at hr
    obtain ⟨a, ha, rfl⟩ := hr
    have := mem_unitSeq_lt ha
    simp only []
    omega
  · by_cases hchk : (start + n) % 2 ^ 32 > npages * 4096 % 2 ^ 32
    · rw [dump_physmem, if_pos hchk]
    · rw [dump_physmem, if_neg hchk]
      simp only [MIN_ADDR_eq, hceil]
      rw [unitSeq_nil (by omega)]
      rfl

/-- Claim C3 is false as stated: requesting `[4092, 4100)` from a machine
with one installed page yields zero records (the code prints
"Range out of memory!" and returns), not the single record at `4092`
that clamping to `min(end, npages*PGSIZE, 0x10000000)` would produce. -/
theorem claim_C3_counterexample :
    ¬((dump_physmem 1 (fun _ => 0) 4092 8).map PhysRecord.pa =
      unitSeq 4092 (min ((4092 + 8) % 2 ^ 32)
        (min (1 * 4096 % 2 ^ 32) 0x10000000))) := by decide

/-- Witness for the amended claim C3 at a concrete input: 16 installed
pages, two units starting at physical 0. -/
theorem claim_C3_witness :
    (dump_physmem 16 (fun _ => 0) 0 8).map PhysRecord.pa = [0, 4] := by
  have h := ((claim_C3_amended 16 (fun _ => 0) 0 8).2.1 (by decide)).1
  rw [h]
  decide

/-- `testBit` of the constant 1 at an arbitrary position. -/
theorem testBit_one (j : Nat) : Nat.testBit 1 j = decide (0 = j) := by
  rw [show (1 : Nat) = 2 ^ 0 by rfl, Nat.testBit_two_pow]

/-- The rewritten entry `(p & ~0xfff) | perm | PTE_P` has low bits
`perm | PTE_P`. -/
theorem permBits_low (p perm : Nat) (hperm : perm < 2 ^ 12) :
    ((p &&& 0xfffff000) ||| perm ||| 1) &&& 0xfff = perm ||| 1 := by
  have hm : (0xfffff000 : Nat) = 0xfffff <<< 12 := by decide
  have hf : (0xfff : Nat) = 2 ^ 12 - 1 := by norm_num
  apply Nat.eq_of_testBit_eq
  intro i
  simp only [Nat.testBit_and, Nat.testBit_or, hm, hf, Nat.testBit_shiftLeft,
    Nat.testBit_two_pow_sub_one, testBit_one]
  by_cases h12 : i < 12
  · simp [h12, show ¬(12 ≤ i) by omega]
  · have hpi : perm.testBit i = false :=
      Nat.testBit_lt_two_pow
        (lt_of_lt_of_le hperm (Nat.pow_le_pow_right (by norm_num) (by omega)))
    simp [h12, hpi, show ¬(0 = i) by omega]

/-- The rewritten entry keeps the physical-base field of the old entry. -/
theorem permBits_high (p perm : Nat) (hperm : perm < 2 ^ 12) :
    ((p &&& 0xfffff000) ||| perm ||| 1) &&& 0xfffff000 = p &&& 0xfffff000 := by
  have hm : (0xfffff000 : Nat) = 0xfffff <<< 12 := by decide
  apply Nat.eq_of_testBit_eq
  intro i
  simp only [Nat.testBit_and, Nat.testBit_or, hm, Nat.testBit_shiftLeft,
    testBit_one]
  by_cases h12 : i < 12
  · simp [show ¬(12 ≤ i) by omega]
  · have hpi : perm.testBit i = false :=
      Nat.testBit_lt_two_pow
        (lt_of_lt_of_le hperm (Nat.pow_le_pow_right (by norm_num) (by omega)))
    simp [show (12 ≤ i) by omega, hpi, show ¬(0 = i) by omega,
      Bool.and_comm, Bool.and_assoc, Bool.and_left_comm]

/-- The rewritten entry has the present bit set. -/
theorem permBits_present (p perm : Nat) :
    ((p &&& 0xfffff000) ||| perm ||| 1) &&& 1 = 1 := by
  rw [Nat.and_one_is_mod, Nat.mod_two_eq_one_iff_testBit_zero]
  simp [Nat.testBit_or]

/-- The rewritten entry still fits in 32 bits. -/
theorem permBits_lt (p perm : Nat) (hperm : perm < 2 ^ 12) :
    ((p &&& 0xfffff000) ||| perm ||| 1) < 2 ^ 32 := by
  have h1 : p &&& 0xfffff000 < 2 ^ 32 := Nat.and_lt_two_pow p (by norm_num)
  have h2 : perm < 2 ^ 32 := lt_trans hperm (by norm_num)
  exact Nat.or_lt_two_pow (Nat.or_lt_two_pow h1 h2) (by norm_num)

/-- Claim C4: for a virtual address whose mapping is present, immediately
after `setperm(va, bits)` the walk finds a present entry whose low
permission field is `(bits & 0xfff) | PTE_P` (the present bit is forced on
even if `bits` omits it) and whose physical-base field `PTE_ADDR` is
unchanged from the entry seen before the call. -/
theorem claim_C4_theorem (pt : PageTable) (va bits : Nat) (q : Nat × Nat)
    (hw : pgdir_walk pt va = some q) (hp : q.2 &&& 1 ≠ 0) :
    (mon_setperm pt va bits).1 = .ok ∧
    ∃ r, pgdir_walk (mon_setperm pt va bits).2 va = some r ∧
      r.2 &&& 1 = 1 ∧
      r.2 &&& 0xfff = (bits &&& 0xfff) ||| 1 ∧
      PTE_ADDR r.2 = PTE_ADDR q.2 := by
  have hperm : bits &&& 0xfff < 2 ^ 12 := Nat.and_lt_two_pow bits (by norm_num)
  have hpres : pt.pdePresent (PDX va) = true := by
    by_cases h : pt.pdePresent (PDX va)
    · exact h
    · rw [pgdir_walk, if_neg (by simp [h])] at hw
      exact absurd hw (by simp)
  refine ⟨?_, (pt.pteSlotAddr (PDX va) (PTX va),
    (q.2 &&& 0xfffff000) ||| (bits &&& 0xfff) ||| 1), ?_, ?_, ?_, ?_⟩
  · simp only [mon_setperm, hw, if_pos hp]
  · simp only [mon_setperm, hw, if_pos hp]
    rw [pgdir_walk]
    simp only [setPte]
    rw [if_pos hpres]
    simp only [eq_self_iff_true, and_self, if_true]
    rw [Nat.mod_eq_of_lt (permBits_lt q.2 (bits &&& 0xfff) hperm)]
  · exact permBits_present q.2 (bits &&& 0xfff)
  · exact permBits_low q.2 (bits &&& 0xfff) hperm
  · exact permBits_high q.2 (bits &&& 0xfff) hperm

/-- Witness for claim C4 at a concrete input: a present entry `0x5007` at
`va = 0x1000`, permission argument `0x4` (present bit omitted); the
resulting entry is `0x5005`. -/
theorem claim_C4_witness :
    pgdir_walk (mon_setperm ptAllMapped 0x1000 0x4).2 0x1000 =
      some (0xf0400000, 0x5005) := by
  obtain ⟨-, r, hr, h1, h2, h3⟩ :=
    claim_C4_theorem ptAllMapped 0x1000 0x4 (0xf0400000, 0x5007)
      (by decide) (by decide)
  rw [hr]
  have : r = (0xf0400000, 0x5005) := by
    have hv := congrArg (fun o => o.getD (0, 0)) hr
    simp only [Option.getD_some] at hv
    rw [← hv]
    decide
  rw [this]

/-- Claim C5: `setperm` on an address with no present mapping (either the
walk returns null or the entry lacks the present bit) reports that there is
no mapping and returns the page-table structure unchanged. -/
theorem claim_C5_theorem (pt : PageTable) (va bits : Nat)
    (h : pgdir_walk pt va = none ∨
      ∃ q, pgdir_walk pt va = some q ∧ q.2 &&& 1 = 0) :
    mon_setperm pt va bits = (.notMapped, pt) := by
  rcases h with h | ⟨q, hq, h0⟩
  · simp only [mon_setperm, h]
  · simp only [mon_setperm, hq, h0]
    norm_num

/-- Witness for claim C5 at a concrete input: no directory entry is present
at `va = 0x1000`, so the command reports no mapping and the table is
returned untouched. -/
theorem claim_C5_witness :
    mon_setperm ptAllAbsent 0x1000 0x6 = (.notMapped, ptAllAbsent) :=
  claim_C5_theorem ptAllAbsent 0x1000 0x6 (Or.inl (by decide))

/-- Claim C6: a frame chain of `k` non-zero links ending in a zero sentinel
produces exactly `k` frames (given fuel at least `k`); in particular a
chain whose very first link reads zero produces no frame. -/
theorem claim_C6_theorem (m : Nat → Nat) (resolve : Nat → Eipdebuginfo)
    (k : Nat) :
    ∀ b, (∀ i, i < k → (read m)^[i] b ≠ 0) → (read m)^[k] b = 0 →
      ∀ fuel, k ≤ fuel → (backtraceLoop m resolve fuel b).length = k := by
  induction k with
  | zero =>
    intro b _ h2 fuel _
    rw [Function.iterate_zero_apply] at h2
    cases fuel with
    | zero => rfl
    | succ f => simp [backtraceLoop, h2]
  | succ k ih =>
    intro b h1 h2 fuel hf
    have hb : b ≠ 0 := by
      have := h1 0 (Nat.succ_pos k)
      rwa [Function.iterate_zero_apply] at this
    cases fuel with
    | zero => omega
    | succ f =>
      have h1p : ∀ i, i < k → (read m)^[i] (read m b) ≠ 0 := by
        intro i hi
        rw [← Function.iterate_succ_apply]
        exact h1 (i + 1) (by omega)
      have h2p : (read m)^[k] (read m b) = 0 := by
        rw [← Function.iterate_succ_apply]
        exact h2
      simp only [backtraceLoop, if_neg hb, List.length_cons]
      rw [ih (read m b) h1p h2p f (by omega)]

/-- Witness for claim C6 at a concrete input: the chain `8 → 16 → 0` gives
exactly two frames. -/
theorem claim_C6_witness :
    (backtraceLoop memTwoFrames resolveStub 5 8).length = 2 := by
  refine claim_C6_theorem memTwoFrames resolveStub 2 8 ?_ (by decide) 5 (by omega)
  intro i hi
  interval_cases i <;> decide

/-- Claim C8: every frame the backtrace visits carries exactly 5 argument
words, located at 8, 12, 16, 20 and 24 bytes above the frame base (i.e.
immediately above the return address at offset 4), and its reported symbol
offset is `eip - eip_fn_addr` in 32-bit arithmetic. -/
theorem claim_C8_theorem (m : Nat → Nat) (resolve : Nat → Eipdebuginfo) :
    ∀ fuel b fr, fr ∈ backtraceLoop m resolve fuel b →
      fr.args.length = 5 ∧
      (∀ i, i < 5 → fr.args.getD i 0 = read m (fr.ebp + 8 + 4 * i)) ∧
      fr.eip = read m (fr.ebp + 4) ∧
      fr.offset =
        (fr.eip + 2 ^ 32 - (resolve fr.eip).eip_fn_addr % 2 ^ 32) % 2 ^ 32 := by
  intro fuel
  induction fuel with
  | zero =>
    intro b fr hfr
    exact absurd hfr (by simp [backtraceLoop])
  | succ f ih =>
    intro b fr hfr
    rw [backtraceLoop] at hfr
    by_cases hb : b = 0
    · rw [if_pos hb] at hfr
      exact absurd hfr (by simp)
    · rw [if_neg hb, List.mem_cons] at hfr
      rcases hfr with rfl | hfr
      · refine ⟨rfl, ?_, rfl, rfl⟩
        intro i hi
        interval_cases i <;> rfl
      · exact ih (read m b) fr hfr

/-- Witness for claim C8 at a concrete input: the first frame of the chain
`8 → 16 → 0` has five argument words, and its second argument word is the
word at address `8 + 8 + 4`. -/
theorem claim_C8_witness :
    (mkFrame memTwoFrames resolveStub 8).args.length = 5 ∧
    (mkFrame memTwoFrames resolveStub 8).args.getD 1 0 =
      read memTwoFrames ((mkFrame memTwoFrames resolveStub 8).ebp + 8 + 4 * 1) := by
  have hmem : mkFrame memTwoFrames resolveStub 8 ∈
      backtraceLoop memTwoFrames resolveStub 5 8 := by
    rw [backtraceLoop, if_neg (by decide)]
    exact List.mem_cons_self _ _
  obtain ⟨hl, hargs, -, -⟩ :=
    claim_C8_theorem memTwoFrames resolveStub 5 8
      (mkFrame memTwoFrames resolveStub 8) hmem
  exact ⟨hl, hargs 1 (by omega)⟩

/-- Claim C9 (amended): a missing directory entry and a non-present table
entry are surfaced identically — `showmapping` prints `No Mapping` for both
and the virtual dump emits records with physical address and content both
absent for both — except for `print_pte`'s deliberate corner case: a
non-present entry whose slot pointer equals `kern_pgdir` (and, vacuously, a
null pointer when `kern_pgdir` itself is 0) is reported as a mapping of the
page directory's physical address, distinguishable from `No Mapping`. -/
theorem claim_C9_amended :
    (∀ pgdirAddr slot v, v &&& 1 = 0 → slot % 2 ^ 32 ≠ pgdirAddr % 2 ^ 32 →
      print_pte pgdirAddr (some (slot, v)) = PteReport.noMapping) ∧
    (∀ pgdirAddr, pgdirAddr % 2 ^ 32 ≠ 0 →
      print_pte pgdirAddr none = PteReport.noMapping) ∧
    (∀ pt m s e r, (pgdir_walk pt s = none ∨
        ∃ q, pgdir_walk pt s = some q ∧ q.2 &&& 1 = 0) →
      r ∈ (dumpVirtStep pt m s e).1 → r.pa = none ∧ r.content = none) := by
  refine ⟨?_, ?_, ?_⟩
  · intro A slot v hv hne
    simp only [print_pte]
    rw [if_neg (by simp [hv]), if_neg hne]
  · intro A hA
    simp only [print_pte]
    rw [if_neg (fun hc => hA hc.symm)]
  · intro pt m s e r hcase hr
    rcases hcase with hw | ⟨q, hw, h0⟩
    · simp only [dumpVirtStep, hw, List.mem_map] at hr
      obtain ⟨a, -, rfl⟩ := hr
      exact ⟨rfl, rfl⟩
    · simp only [dumpVirtStep, hw, h0, if_pos, List.mem_map] at hr
      obtain ⟨a, -, rfl⟩ := hr
      exact ⟨rfl, rfl⟩

/-- Claim C9 is false as stated: the walk can return a non-present entry
sitting at the page directory itself (the `UVPT` recursive slot), and
`showmapping` then reports it differently from a missing directory entry. -/
theorem claim_C9_counterexample :
    print_pte 0xf0119000 (some (0xf0119000, 0)) ≠
      print_pte 0xf0119000 none := by decide

/-- Witness for the amended claim C9 at concrete inputs: a non-present
entry at an ordinary slot and a null walk result report identically. -/
theorem claim_C9_witness :
    print_pte 0xf0119000 (some (0xf0400000, 0)) = PteReport.noMapping ∧
    print_pte 0xf0119000 none = PteReport.noMapping :=
  ⟨claim_C9_amended.1 0xf0119000 0xf0400000 0 (by decide) (by decide),
   claim_C9_amended.2.1 0xf0119000 (by decide)⟩

/-- `showLoop` emits nothing when the start is beyond the end. -/
theorem showLoop_nil (pt : PageTable) {s e : Nat} (h : ¬ s ≤ e) :
    ∀ f, showLoop pt f s e = [] := by
  intro f
  cases f with
  | zero => rfl
  | succ f => simp [showLoop, h]

/-- With both bounds page-aligned and the end low enough that the counter
never wraps, `showLoop` visits exactly the pages from `s` through `e`. -/
theorem showLoop_covers (pt : PageTable) :
    ∀ n f s e, 4096 ∣ s → 4096 ∣ e → s ≤ e → e + 4096 < 2 ^ 32 →
      (e - s) / 4096 = n → n + 1 ≤ f →
      showLoop pt f s e = (List.range (n + 1)).map
        (fun k => (s + 4096 * k,
          print_pte pt.pgdirAddr (pgdir_walk pt (s + 4096 * k)))) := by
  intro n
  induction n with
  | zero =>
    intro f s e hs he hle hlt hn hf
    have hseq : e = s := by
      obtain ⟨a, rfl⟩ := hs
      obtain ⟨b, rfl⟩ := he
      omega
    subst hseq
    obtain ⟨f, rfl⟩ : ∃ g, f = g + 1 := ⟨f - 1, by omega⟩
    rw [showLoop, if_pos hle, showLoop_nil pt (by omega) f]
    simp [List.range_succ]
  | succ n ih =>
    intro f s e hs he hle hlt hn hf
    have hdiff : e - s = 4096 * (n + 1) := by
      obtain ⟨a, rfl⟩ := hs
      obtain ⟨b, rfl⟩ := he
      omega
    obtain ⟨f, rfl⟩ : ∃ g, f = g + 1 := ⟨f - 1, by omega⟩
    have hmod : (s + 4096) % 2 ^ 32 = s + 4096 := Nat.mod_eq_of_lt (by omega)
    rw [showLoop, if_pos hle, hmod]
    rw [ih f (s + 4096) e (by omega) he (by omega) hlt (by omega) (by omega)]
    have hstep : List.map (fun k => (s + 4096 * k,
          print_pte pt.pgdirAddr (pgdir_walk pt (s + 4096 * k))))
          (List.range (n + 1 + 1)) =
        (fun k => (s + 4096 * k,
          print_pte pt.pgdirAddr (pgdir_walk pt (s + 4096 * k)))) 0 ::
        List.map ((fun k => (s + 4096 * k,
          print_pte pt.pgdirAddr (pgdir_walk pt (s + 4096 * k)))) ∘ Nat.succ)
          (List.range (n + 1)) := by
      rw [List.range_succ_eq_map, List.map_cons, List.map_map]
    have hhead : (fun k => (s + 4096 * k,
        print_pte pt.pgdirAddr (pgdir_walk pt (s + 4096 * k)))) 0 =
        (s, print_pte pt.pgdirAddr (pgdir_walk pt s)) := by norm_num
    have htail : List.map ((fun k => (s + 4096 * k,
          print_pte pt.pgdirAddr (pgdir_walk pt (s + 4096 * k)))) ∘ Nat.succ)
          (List.range (n + 1)) =
        List.map (fun k => (s + 4096 + 4096 * k,
          print_pte pt.pgdirAddr (pgdir_walk pt (s + 4096 + 4096 * k))))
          (List.range (n + 1)) := by
      apply List.map_congr_left
      intro k _
      simp only [Function.comp_apply, Nat.succ_eq_add_one]
      have harith : s + 4096 * (k + 1) = s + 4096 + 4096 * k := by omega
      rw [harith]
    rw [hstep, hhead, htail]

/-- Claim C10 (amended): `showmapping` rounds both bounds down to page
boundaries and emits exactly one record per page from the aligned start
through the aligned end inclusive (one record when they are equal, none
when start exceeds end) — provided the aligned end is below `0xfffff000`;
at the top page the inclusive counter wraps past `0xfffff000` and the loop
restarts from address 0 instead of stopping. -/
theorem claim_C10_amended (pt : PageTable) (saddr eaddr : Nat)
    (he : ROUNDDOWN (eaddr % 2 ^ 32) 4096 < 0xfffff000) :
    mon_showmapping pt saddr eaddr =
      (pageSeq (ROUNDDOWN (saddr % 2 ^ 32) 4096)
        (ROUNDDOWN (eaddr % 2 ^ 32) 4096)).map
        (fun a => (a, print_pte pt.pgdirAddr (pgdir_walk pt a))) := by
  have hs4 : 4096 ∣ ROUNDDOWN (saddr % 2 ^ 32) 4096 := by
    rw [ROUNDDOWN]
    omega
  have he4 : 4096 ∣ ROUNDDOWN (eaddr % 2 ^ 32) 4096 := by
    rw [ROUNDDOWN]
    omega
  by_cases hle : ROUNDDOWN (saddr % 2 ^ 32) 4096 ≤ ROUNDDOWN (eaddr % 2 ^ 32) 4096
  · rw [mon_showmapping, pageSeq, if_pos hle, List.map_map]
    exact showLoop_covers pt _ _ _ _ hs4 he4 hle (by omega) rfl (by omega)
  · rw [mon_showmapping, pageSeq, if_neg hle]
    exact showLoop_nil pt hle _

/-- Claim C10 is false as stated: with start and end both `0xfffff000` (the
top page, already aligned), the claim demands exactly one record, but the
inclusive loop counter wraps to 0 and the code keeps emitting records for
low pages — the output begins `0xfffff000, 0, ...`. -/
theorem claim_C10_counterexample :
    (mon_showmapping ptAllAbsent 0xfffff000 0xfffff000).map Prod.fst ≠
      [0xfffff000] := by decide

/-- Witness for the amended claim C10 at a concrete input: bounds `0x1234`
and `0x2345` are rounded down and the pages `0x1000` and `0x2000` are each
reported once, the end page inclusive. -/
theorem claim_C10_witness :
    (mon_showmapping ptAllAbsent 0x1234 0x2345).map Prod.fst =
      [0x1000, 0x2000] := by
  rw [claim_C10_amended ptAllAbsent 0x1234 0x2345 (by decide)]
  decide

/-- A unit run over `[s, e)` splits at any intermediate bound `nx` into the
run up to `nx` followed by the run restarting at the advanced counter. -/
theorem unitSeq_split (s nx e : Nat) (h1 : s ≤ nx) (h2 : nx ≤ e) :
    unitSeq s e = unitSeq s nx ++ unitSeq (stepAdvance s nx) e := by
  by_cases hlt : s < nx
  · rw [stepAdvance, if_pos hlt]
    set k0 := (nx - s + 3) / 4 with hk0
    have hK : (e - s + 3) / 4 = k0 + (e - (s + 4 * k0) + 3) / 4 := by omega
    simp only [unitSeq]
    rw [hK, List.range_add, List.map_append, List.map_map]
    congr 1
    apply List.map_congr_left
    intro j _
    simp only [Function.comp_apply]
    omega
  · have hsnx : nx = s := by omega
    subst hsnx
    rw [stepAdvance, if_neg hlt, unitSeq_nil (le_refl nx)]
    simp

/-- At a sound address, one `dump_virtmem` iteration emits records whose
addresses are exactly the units of `[s, min e B)` for some bound `B`
strictly above `s`, and advances the counter accordingly. -/
theorem dumpVirtStep_va (pt : PageTable) (m : Nat → Nat) (s e : Nat)
    (hs : s < 2 ^ 32) (hg : goodVa pt s) :
    ∃ B F, s < B ∧ (∀ a, DumpRecord.va (F a) = a) ∧
      dumpVirtStep pt m s e =
        ((unitSeq s (min e B)).map F, stepAdvance s (min e B)) := by
  cases hw : pgdir_walk pt s with
  | none =>
    refine ⟨(s / 2 ^ 22 + 1) * 2 ^ 22, fun a => ⟨a, none, none⟩,
      by omega, fun a => rfl, ?_⟩
    simp only [dumpVirtStep, hw, MIN_ADDR_eq, nextAddr_dir hs (hg.1 hw)]
  | some q =>
    have hc := hg.2 q hw
    by_cases h0 : q.2 &&& 1 = 0
    · refine ⟨(s / 2 ^ 12 + 1) * 2 ^ 12, fun a => ⟨a, none, none⟩,
        by omega, fun a => rfl, ?_⟩
      simp only [dumpVirtStep, hw, MIN_ADDR_eq, nextAddr_pte hs hc]
      rw [if_pos h0]
    · refine ⟨(s / 2 ^ 12 + 1) * 2 ^ 12,
        fun a => ⟨a, some (PTE_ADDR q.2 ||| PGOFF a), some (read m a)⟩,
        by omega, fun a => rfl, ?_⟩
      simp only [dumpVirtStep, hw, MIN_ADDR_eq, nextAddr_pte hs hc]
      rw [if_neg h0]

/-- The advanced counter never moves backwards. -/
theorem stepAdvance_ge (s nx : Nat) : s ≤ stepAdvance s nx := by
  rw [stepAdvance]
  split <;> omega

/-- Run coverage for `dump_virtmem` away from the boundary-bug corners:
whenever every address of `[s, e)` is sound, the dump's record addresses
are exactly the 4-byte units of `[s, e)`, with no gaps and no duplicates,
however many directory and table boundaries the range crosses. -/
theorem dumpVirtLoop_covers (pt : PageTable) (m : Nat → Nat) :
    ∀ fuel s e, e ≤ 2 ^ 32 → (∀ a, s ≤ a → a < e → goodVa pt a) →
      (e - s + 3) / 4 < fuel →
      (dumpVirtLoop pt m fuel s e).map DumpRecord.va = unitSeq s e := by
  intro fuel
  induction fuel with
  | zero =>
    intro s e _ _ hf
    omega
  | succ fuel ih =>
    intro s e he hg hf
    by_cases hse : s < e
    · have hs32 : s < 2 ^ 32 := lt_of_lt_of_le hse he
      obtain ⟨B, F, hB, hF, hstep⟩ :=
        dumpVirtStep_va pt m s e hs32 (hg s (le_refl s) hse)
      have hnx : s < min e B := lt_min hse hB
      have hs4 : s + 4 ≤ stepAdvance s (min e B) := by
        rw [stepAdvance, if_pos hnx]
        omega
      have hcomp : DumpRecord.va ∘ F = id := funext hF
      simp only [dumpVirtLoop, hstep]
      rw [if_pos hse, List.map_append, List.map_map, hcomp, List.map_id]
      rw [ih (stepAdvance s (min e B)) e he
        (fun a ha1 ha2 => hg a (le_trans (stepAdvance_ge s _) ha1) ha2)
        (by omega)]
      exact (unitSeq_split s (min e B) e (le_of_lt hnx) (min_le_left e B)).symm
    · rw [dumpVirtLoop, if_neg hse, unitSeq_nil (by omega)]
      rfl

end Monitor
